import Mathlib

/-!
Verification of the scheduled-task scheduling engine
(`scheduler.py`, `cancel_task.py`, `run_task.py`) against its
natural-language specification.

Times are modelled as integers counting microseconds (the resolution of
Python `datetime`); timestamp strings stored in task records are kept as
strings, and the standard-library conversions `datetime.fromisoformat` /
`datetime.isoformat` are abstracted as an environment pair
`fromIso : String → Option Time` / `toIso : Time → String` (a concrete
executable instance is provided for evaluation).  The `croniter` library
is abstracted as `cronNext : String → Time → Option Time`, where `none`
models the exception raised on an invalid expression.  Fallible Python
code (raised exceptions caught by `try/except`) is modelled with
`Option`.
-/

namespace Scheduler

/-- Time in microseconds, as in Python `datetime` resolution. -/
abbrev Time := Int

/-- `dt.replace(microsecond=0)`: zero the sub-second component. -/
def truncMicro (t : Time) : Time := t - t % 1000000

/-! ### Decimal digits and a model of Python `int(...)` / number printing -/

def digitToChar (d : Nat) : Char :=
  match d with
  | 0 => '0' | 1 => '1' | 2 => '2' | 3 => '3' | 4 => '4'
  | 5 => '5' | 6 => '6' | 7 => '7' | 8 => '8' | _ => '9'

def charToDigit (c : Char) : Nat := c.toNat - 48

def isDig (c : Char) : Bool := decide (48 ≤ c.toNat) && decide (c.toNat ≤ 57)

/-- Little-endian digit characters of `n` (empty for `0`); the first
argument is fuel, always called with `fuel = n`. -/
def natCharsAux : Nat → Nat → List Char
  | 0, _ => []
  | fuel+1, n => if n = 0 then [] else digitToChar (n % 10) :: natCharsAux fuel (n / 10)

/-- Decimal digit characters of a natural number, most significant first. -/
def numChars (n : Nat) : List Char :=
  if n = 0 then ['0'] else (natCharsAux n n).reverse

/-- Decimal characters of an integer, with a leading minus sign if negative. -/
def intChars (n : Int) : List Char :=
  if n < 0 then '-' :: numChars n.natAbs else numChars n.toNat

/-- Value of a most-significant-first digit string. -/
def valMS (ds : List Char) : Nat := ds.foldl (fun a c => a * 10 + charToDigit c) 0

/-- Parse a non-empty all-digit character list. -/
def decDigits? (ds : List Char) : Option Nat :=
  if !ds.isEmpty && ds.all isDig then some (valMS ds) else none

/-- Model of Python `int(str)`: optional sign followed by decimal digits;
`none` models the raised `ValueError`. -/
def strToInt? (s : String) : Option Int :=
  match s.data with
  | '-' :: ds => (decDigits? ds).map fun n => -(n : Int)
  | '+' :: ds => (decDigits? ds).map fun n => (n : Int)
  | ds => (decDigits? ds).map fun n => (n : Int)

/-! ### Data model: tasks and the registry

Python task records are dictionaries accessed with `.get`; a missing key
yields `None`.  Each field is therefore an `Option`.  (`enabled` conflates
"absent" and JSON `null` into `none`; the registry writers only ever store
real booleans there.) -/

/-- The `schedule` sub-dictionary of a task record. -/
structure Schedule where
  type : Option String
  expression : Option String

/-- A task record, restricted to the fields the scheduling engine reads. -/
structure Task where
  id : Option String
  schedule : Option Schedule
  enabled : Option Bool
  lastRun : Option String
  lastStatus : Option String
  nextRun : Option String

/-- The registry dictionary: `{"tasks": [...], "schedulerPid": ...}`. -/
structure Registry where
  tasks : List Task
  schedulerPid : Option Int

/-- External-library environment: the `datetime` string conversions and
`croniter`.  `cronNext e now = none` models `croniter(e, now)` raising on
an invalid expression. -/
structure Env where
  fromIso : String → Option Time
  toIso : Time → String
  hasCroniter : Bool
  cronNext : String → Time → Option Time

/-- Python truthiness of an optional string: `None` and `""` are falsy. -/
def truthyStr (o : Option String) : Bool :=
  match o with
  | none => false
  | some s => !(s == "")

/-- `task.get("schedule", {})`. -/
def scheduleOf (task : Task) : Schedule := task.schedule.getD ⟨none, none⟩

/-- `task.get("schedule", {}).get("type")`. -/
def scheduleTypeOf (task : Task) : Option String := (scheduleOf task).type

/-- `task.get("schedule", {}).get("expression")`. -/
def scheduleExprOf (task : Task) : Option String := (scheduleOf task).expression

/-! ### `scheduler.py` -/

/-- `parse_interval`: seconds denoted by an interval expression such as
`"30m"`; `none` models the raised `ValueError` (or `IndexError` on the
empty string).  The unit character is case-insensitive. -/
def parse_interval (s : String) : Option Int :=
  match s.data.getLast? with
  | none => none
  | some c =>
    let mult : Option Int :=
      match c.toLower with
      | 's' => some 1
      | 'm' => some 60
      | 'h' => some 3600
      | 'd' => some 86400
      | _ => none
    match mult with
    | none => none
    | some m =>
      match strToInt? (String.mk s.data.dropLast) with
      | none => none
      | some v => some (v * m)

/-- `expr.replace(" ", "T")`. -/
def spaceToT (s : String) : String :=
  String.mk (s.data.map fun c => if c = ' ' then 'T' else c)

/-- `get_next_run_time(task)`: the next run time of a task relative to
`now`, or `none` when the schedule yields no next run (unknown kind,
invalid expression, missing `croniter`, unparseable timestamp). -/
def get_next_run_time (env : Env) (task : Task) (now : Time) : Option Time :=
  let stype := scheduleTypeOf task
  let expr := scheduleExprOf task
  if stype == some "cron" then
    if !env.hasCroniter then none
    else
      match expr with
      | none => none
      | some e => env.cronNext e now
  else if stype == some "interval" then
    match expr with
    | none => none
    | some e =>
      match parse_interval e with
      | none => none
      | some intervalSecs =>
        if truthyStr task.lastRun then
          match env.fromIso (task.lastRun.getD "") with
          | none => none
          | some lastDt =>
            let nextRun := truncMicro lastDt + intervalSecs * 1000000
            if nextRun ≤ now then some now else some nextRun
        else
          some now
  else if stype == some "once" then
    match expr with
    | none => none
    | some e =>
      match env.fromIso (spaceToT e) with
      | none => none
      | some runTime => if now < runTime then some runTime else none
  else
    none

/-- `is_task_due(task)`: the task is enabled (defaulting to enabled when
the flag is absent), has a truthy `nextRun`, and that timestamp parses
and is not after `now`. -/
def is_task_due (env : Env) (task : Task) (now : Time) : Bool :=
  if !(task.enabled.getD true) then false
  else if !truthyStr task.nextRun then false
  else
    match env.fromIso (task.nextRun.getD "") with
    | none => false
    | some nextRun => decide (nextRun ≤ now)

/-- Update the first list element satisfying `p` (the `for … break`
pattern of `update_task_after_run`). -/
def updateFirst (p : Task → Bool) (f : Task → Task) : List Task → List Task
  | [] => []
  | t :: ts => if p t then f t :: ts else t :: updateFirst p f ts

/-- Remove the first list element satisfying `p` (`tasks.pop(i)`). -/
def removeFirst (p : Task → Bool) : List Task → List Task
  | [] => []
  | t :: ts => if p t then ts else t :: removeFirst p ts

/-- The per-task body of `update_task_after_run`: record `lastRun` /
`lastStatus`; a `once` task is disabled with `nextRun = null`, any other
task gets `nextRun` recomputed from the mutated record. -/
def update_task_fields (env : Env) (now : Time) (success : Bool) (task : Task) : Task :=
  let t1 := { task with
    lastRun := some (env.toIso now),
    lastStatus := some (if success then "success" else "failed") }
  if (scheduleOf t1).type == some "once" then
    { t1 with enabled := some false, nextRun := none }
  else
    match get_next_run_time env t1 now with
    | some nextRun => { t1 with nextRun := some (env.toIso nextRun) }
    | none => { t1 with nextRun := none }

/-- `update_task_after_run(registry, task_id, success)`: update the first
task whose `id` equals `task_id` (which may be `None`). -/
def update_task_after_run (env : Env) (reg : Registry) (taskId : Option String)
    (success : Bool) (now : Time) : Registry :=
  { reg with
    tasks := updateFirst (fun t => t.id == taskId) (update_task_fields env now success) reg.tasks }

/-! ### `cancel_task.py` -/

/-- `cancel_task(task_id, delete)`: delete the first matching task, or
disable it (`enabled = False`, `nextRun = None`); an unknown id leaves
the registry unchanged. -/
def cancel_task (reg : Registry) (taskId : String) (delete : Bool) : Registry :=
  if delete then
    { reg with tasks := removeFirst (fun t => t.id == some taskId) reg.tasks }
  else
    { reg with
      tasks := updateFirst (fun t => t.id == some taskId) (fun t => { t with enabled := some false, nextRun := none }) reg.tasks }

/-- The per-list body of `enable_task`: the first matching task, when not
already truthy-enabled, is set `enabled = True` and has `nextRun`
recomputed on the mutated record. -/
def enableFirst (env : Env) (taskId : String) (now : Time) : List Task → List Task
  | [] => []
  | t :: ts =>
    if t.id == some taskId then
      if t.enabled.getD false then t :: ts
      else
        let t1 := { t with enabled := some true }
        let t2 := { t1 with nextRun := (get_next_run_time env t1 now).map env.toIso }
        t2 :: ts
    else t :: enableFirst env taskId now ts

/-- `enable_task(task_id)` restricted to its registry effect. -/
def enable_task (env : Env) (reg : Registry) (taskId : String) (now : Time) : Registry :=
  { reg with tasks := enableFirst env taskId now reg.tasks }

/-! ### `run_task.py` -/

/-- The registry effect of `run_task(task_id, dry_run)`: when the task
exists, its task file is readable and this is not a dry run, the task is
executed (with outcome `success`) and the registry is updated through
`update_task_after_run`; otherwise the registry is untouched. -/
def run_task (env : Env) (reg : Registry) (taskId : String)
    (dryRun fileOk success : Bool) (now : Time) : Registry :=
  match reg.tasks.find? (fun t => t.id == some taskId) with
  | none => reg
  | some _ =>
    if !fileOk then reg
    else if dryRun then reg
    else update_task_after_run env reg (some taskId) success now

/-! ### Task execution (`execute_task`) -/

/-- Outcome of the backend child-process invocation; the non-`completed`
constructors model the exceptions caught by `execute_task`. -/
inductive BackendResult where
  | completed (exitCode : Int) (stdout stderr : String)
  | timedOut
  | backendMissing
  | otherError (msg : String)

/-- The distinct notification/log event emitted by each `execute_task`
branch. -/
inductive NotifyEvent where
  | taskCompleted
  | taskFileNotFound
  | taskFailedNonZero
  | taskTimeout
  | backendMissingError
  | taskError
deriving DecidableEq

/-- The fixed wall-clock timeout of the backend invocation, in seconds. -/
def timeoutSeconds : Nat := 300

/-- The backend invocation under `timeout=300`: a run that takes longer
than the limit raises `TimeoutExpired`, modelled as `timedOut`. -/
def runBackend (runtimeSecs : Nat) (exitCode : Int) (stdout stderr : String) : BackendResult :=
  if timeoutSeconds < runtimeSecs then .timedOut else .completed exitCode stdout stderr

/-- `execute_task`, as its success flag and emitted event: every branch
returns (no exception escapes to the scheduler loop). -/
def execute_task (taskFileExists : Bool) (result : BackendResult) : Bool × NotifyEvent :=
  if !taskFileExists then (false, .taskFileNotFound)
  else
    match result with
    | .completed exitCode _ _ =>
      if exitCode = 0 then (true, .taskCompleted) else (false, .taskFailedNonZero)
    | .timedOut => (false, .taskTimeout)
    | .backendMissing => (false, .backendMissingError)
    | .otherError _ => (false, .taskError)

/-- One `check_and_run` pass over a task snapshot: each due task is
executed (outcome given by the oracle `exec`) and the registry updated;
returns the final registry and the ids of the executed tasks in order. -/
def check_and_run_aux (env : Env) (exec : Task → Bool) (now : Time) :
    List Task → Registry → Registry × List (Option String)
  | [], st => (st, [])
  | t :: ts, st =>
    if is_task_due env t now then
      let st1 := update_task_after_run env st t.id (exec t) now
      let rest := check_and_run_aux env exec now ts st1
      (rest.1, t.id :: rest.2)
    else
      check_and_run_aux env exec now ts st

/-- `check_and_run` of the scheduler loop: iterate over the loaded
registry's task list. -/
def check_and_run (env : Env) (exec : Task → Bool) (reg : Registry) (now : Time) :
    Registry × List (Option String) :=
  check_and_run_aux env exec now reg.tasks reg

/-- The per-task `enabled == false ⇒ nextRun == null` condition. -/
def invPred (t : Task) : Bool := !(t.enabled == some false) || (t.nextRun == none)

/-- The `enabled == false ⇒ nextRun == null` registry invariant. -/
def registryInvariant (reg : Registry) : Bool := reg.tasks.all invPred

/-! ### A concrete executable environment

Used to evaluate the model on concrete inputs: timestamps are printed
and parsed as plain microsecond counts (the round-trip property of
`isoformat` / `fromisoformat` is all the claims rely on). -/

def cEnv : Env where
  fromIso := strToInt?
  toIso := fun t => String.mk (intChars t)
  hasCroniter := true
  cronNext := fun _ _ => none

/-! ## Claim theorems -/

/-! ### Helper lemmas about `is_task_due` / `get_next_run_time` -/

theorem truthyStr_none : truthyStr none = false := rfl

theorem truthyStr_some (s : String) : truthyStr (some s) = !(s == "") := rfl

/-! ### C1 -/

/-- C1: `is_task_due(task)` is true exactly when the task's enabled flag
is true, its `nextRun` field is set to a non-empty parseable timestamp,
and `now >= nextRun`; in particular a task with `nextRun == null` is
never due, and a disabled task is never due, regardless of timestamps. -/
theorem C1_is_task_due_characterization (env : Env) (task : Task) (now : Time) :
    (∀ b : Bool, task.enabled = some b →
      (is_task_due env task now = true ↔
        (b = true ∧ ∃ s t, task.nextRun = some s ∧ s ≠ "" ∧ env.fromIso s = some t ∧ t ≤ now)))
    ∧ (task.nextRun = none → is_task_due env task now = false)
    ∧ (task.nextRun = some "" → is_task_due env task now = false)
    ∧ (task.enabled = some false → is_task_due env task now = false) := by
  refine ⟨?_, ?_, ?_, ?_⟩
  · intro b hb
    cases b with
    | false => simp [is_task_due, hb]
    | true =>
      cases hnr : task.nextRun with
      | none => simp [is_task_due, hb, hnr, truthyStr]
      | some s =>
        by_cases hs : s = ""
        · subst hs
          simp [is_task_due, hb, hnr, truthyStr]
        · have hsb : (s == "") = false := beq_eq_false_iff_ne.mpr hs
          cases hfi : env.fromIso s with
          | none => simp [is_task_due, hb, hnr, truthyStr_some, hsb, hfi]
          | some t => simp [is_task_due, hb, hnr, truthyStr_some, hsb, hfi, hs]
  · intro h
    simp [is_task_due, h, truthyStr]
  · intro h
    simp [is_task_due, h, truthyStr]
  · intro h
    simp [is_task_due, h]

def cTaskDue : Task :=
  { id := some "t0", schedule := none, enabled := some true,
    lastRun := none, lastStatus := none, nextRun := some "100" }

/-- Witness for C1 at a concrete enabled task whose `nextRun` has
arrived. -/
theorem C1_is_task_due_characterization_witness :
    is_task_due cEnv cTaskDue 200 = true := by
  exact ((C1_is_task_due_characterization cEnv cTaskDue 200).1 true rfl).mpr
    ⟨rfl, "100", 100, rfl, by decide, by decide, by decide⟩

/-! ### C2 (interval schedules) -/

/-- Counterexample to C2 as stated: the code adds the interval to
`lastRun` with its sub-second microseconds zeroed, not to `lastRun`
itself.  With `lastRun = 1.5s` (1500000 microseconds), a one-minute
interval and `now = 0`, the computed next run is `61000000`, not
`lastRun + interval = 61500000`, even though the latter is in the
future. -/
theorem C2_counterexample :
    (parse_interval "1m" = some 60
      ∧ cEnv.fromIso "1500000" = some 1500000)
    ∧ get_next_run_time cEnv
        { id := some "t1", schedule := some ⟨some "interval", some "1m"⟩,
          enabled := some true, lastRun := some "1500000",
          lastStatus := none, nextRun := none } 0 = some 61000000
    ∧ (61000000 : Int) ≠ 1500000 + 60 * 1000000 := by
  refine ⟨⟨by decide, by decide⟩, by decide, by decide⟩

/-- C2 (amended): for an interval task with a valid interval expression,
the next run at reference time `now` is `now` itself when the task has
never run; when it has run before it is `lastRun` — with its sub-second
microsecond component zeroed — plus the interval, collapsed to `now`
when that time is not in the future (a single immediate run, never
multiple catch-up runs). -/
theorem C2_interval_next_run (env : Env) (task : Task) (now : Time) (e : String) (secs : Int)
    (htype : scheduleTypeOf task = some "interval")
    (hexpr : scheduleExprOf task = some e)
    (hsecs : parse_interval e = some secs) :
    (truthyStr task.lastRun = false → get_next_run_time env task now = some now)
    ∧ (∀ s last, task.lastRun = some s → s ≠ "" → env.fromIso s = some last →
        get_next_run_time env task now =
          if truncMicro last + secs * 1000000 ≤ now then some now
          else some (truncMicro last + secs * 1000000)) := by
  constructor
  · intro hlr
    simp [get_next_run_time, htype, hexpr, hsecs, hlr]
  · intro s last hs hne hfi
    have hsb : (s == "") = false := beq_eq_false_iff_ne.mpr hne
    simp only [get_next_run_time, htype, hexpr, hsecs, hs, Option.getD_some,
      truthyStr_some, hsb, Bool.not_false, if_true, hfi]
    simp

def cTaskInterval : Task :=
  { id := some "t1", schedule := some ⟨some "interval", some "1m"⟩,
    enabled := some true, lastRun := some "1500000",
    lastStatus := none, nextRun := none }

/-- Witness for C2 at a concrete interval task that has run before. -/
theorem C2_interval_next_run_witness :
    get_next_run_time cEnv cTaskInterval 0 =
      if truncMicro 1500000 + 60 * 1000000 ≤ 0 then some 0
      else some (truncMicro 1500000 + 60 * 1000000) := by
  exact (C2_interval_next_run cEnv cTaskInterval 0 "1m" 60 (by decide) (by decide)
    (by decide)).2 "1500000" 1500000 rfl (by decide) (by decide)

/-! ### C3 (once schedules) -/

/-- C3: for a `once` task whose expression (after space-to-`T`
normalisation) parses as the absolute timestamp `t`, the next run at
reference time `now` is exactly `t` when `t` is in the future, and
`none` when `t` has already passed. -/
theorem C3_once_next_run (env : Env) (task : Task) (now : Time) (e : String) (t : Time)
    (htype : scheduleTypeOf task = some "once")
    (hexpr : scheduleExprOf task = some e)
    (hparse : env.fromIso (spaceToT e) = some t) :
    get_next_run_time env task now = if now < t then some t else none := by
  simp [get_next_run_time, htype, hexpr, hparse]

def cTaskOnce : Task :=
  { id := some "t2", schedule := some ⟨some "once", some "500"⟩,
    enabled := some true, lastRun := none, lastStatus := none, nextRun := none }

/-- Witness for C3 at a concrete once task, before and after its time. -/
theorem C3_once_next_run_witness :
    get_next_run_time cEnv cTaskOnce 400 = some 500
    ∧ get_next_run_time cEnv cTaskOnce 500 = none := by
  constructor
  · rw [C3_once_next_run cEnv cTaskOnce 400 "500" 500 (by decide) (by decide) (by decide)]
    decide
  · rw [C3_once_next_run cEnv cTaskOnce 500 "500" 500 (by decide) (by decide) (by decide)]
    decide

/-! ### C7 (next-run computation never raises) -/

/-- C7: next-run computation is a total function (it returns an
`Option`, never an escaping exception); a cron schedule whose expression
is invalid (the evaluator raises), missing, or unusable because the cron
library is absent yields `none`, and a schedule whose kind is not
`cron`, `interval`, or `once` yields `none`, treated as inert. -/
theorem C7_next_run_null_cases (env : Env) (task : Task) (now : Time) :
    (scheduleTypeOf task ≠ some "cron" → scheduleTypeOf task ≠ some "interval" →
      scheduleTypeOf task ≠ some "once" → get_next_run_time env task now = none)
    ∧ (scheduleTypeOf task = some "cron" →
        (env.hasCroniter = false → get_next_run_time env task now = none)
        ∧ (scheduleExprOf task = none → get_next_run_time env task now = none)
        ∧ (∀ e, scheduleExprOf task = some e → env.cronNext e now = none →
            get_next_run_time env task now = none)) := by
  constructor
  · intro h1 h2 h3
    have b1 : (scheduleTypeOf task == some "cron") = false := beq_eq_false_iff_ne.mpr h1
    have b2 : (scheduleTypeOf task == some "interval") = false := beq_eq_false_iff_ne.mpr h2
    have b3 : (scheduleTypeOf task == some "once") = false := beq_eq_false_iff_ne.mpr h3
    simp [get_next_run_time, b1, b2, b3]
  · intro hc
    refine ⟨?_, ?_, ?_⟩
    · intro hn
      simp [get_next_run_time, hc, hn]
    · intro he
      simp [get_next_run_time, hc, he]
    · intro e he hcron
      simp [get_next_run_time, hc, he, hcron]

def cTaskBadCron : Task :=
  { id := some "t3", schedule := some ⟨some "cron", some "not a cron expr"⟩,
    enabled := some true, lastRun := none, lastStatus := none, nextRun := none }

def cTaskUnknownKind : Task :=
  { id := some "t4", schedule := some ⟨some "weekly", some "tuesday"⟩,
    enabled := some true, lastRun := none, lastStatus := none, nextRun := none }

/-- Witness for C7: an invalid cron expression and an unknown schedule
kind both yield `none`. -/
theorem C7_next_run_null_cases_witness :
    get_next_run_time cEnv cTaskBadCron 0 = none
    ∧ get_next_run_time cEnv cTaskUnknownKind 0 = none := by
  constructor
  · exact (C7_next_run_null_cases cEnv cTaskBadCron 0).2 (by decide) |>.2.2
      "not a cron expr" (by decide) rfl
  · exact (C7_next_run_null_cases cEnv cTaskUnknownKind 0).1
      (by decide) (by decide) (by decide)

/-! ### C10 (`is_task_due` is total and lenient) -/

/-- C10: `is_task_due` is total and lenient: a record with no `enabled`
field behaves exactly as one with the flag set to true (the flag
defaults to true), and a record whose `nextRun` is present but not
parseable as a timestamp is reported not due rather than raising. -/
theorem C10_is_task_due_lenient (env : Env) (task : Task) (now : Time) :
    (task.enabled = none →
      is_task_due env task now = is_task_due env { task with enabled := some true } now)
    ∧ (∀ s, task.nextRun = some s → env.fromIso s = none →
        is_task_due env task now = false) := by
  constructor
  · intro h
    simp [is_task_due, h]
  · intro s hs hfi
    by_cases hse : s = ""
    · subst hse
      simp [is_task_due, hs, truthyStr]
    · have hsb : (s == "") = false := beq_eq_false_iff_ne.mpr hse
      simp [is_task_due, hs, truthyStr_some, hsb, hfi]

def cTaskNoEnabled : Task :=
  { id := some "t5", schedule := none, enabled := none,
    lastRun := none, lastStatus := none, nextRun := some "100" }

def cTaskBadNextRun : Task :=
  { id := some "t6", schedule := none, enabled := some true,
    lastRun := none, lastStatus := none, nextRun := some "not a time" }

/-- Witness for C10: a record without the `enabled` flag is due exactly
like its explicitly-enabled twin, and an unparseable `nextRun` yields
not-due. -/
theorem C10_is_task_due_lenient_witness :
    is_task_due cEnv cTaskNoEnabled 200 =
      is_task_due cEnv { cTaskNoEnabled with enabled := some true } 200
    ∧ is_task_due cEnv cTaskBadNextRun 200 = false := by
  constructor
  · exact (C10_is_task_due_lenient cEnv cTaskNoEnabled 200).1 rfl
  · exact (C10_is_task_due_lenient cEnv cTaskBadNextRun 200).2 "not a time" rfl (by decide)


/-! ### C4 / C5 helper lemmas on list updates -/

theorem find?_updateFirst (p : Task → Bool) (f : Task → Task) (ts : List Task) (t : Task)
    (hfind : ts.find? p = some t) (hf : p (f t) = true) :
    (updateFirst p f ts).find? p = some (f t) := by
  induction ts with
  | nil => simp at hfind
  | cons u us ih =>
    by_cases hpu : p u = true
    · rw [List.find?_cons_of_pos _ hpu] at hfind
      cases Option.some.inj hfind
      simp [updateFirst, hpu, List.find?_cons_of_pos _ hf]
    · have hpu' : ¬ p u = true := hpu
      rw [List.find?_cons_of_neg _ hpu'] at hfind
      have hpub : p u = false := by revert hpu; cases p u <;> simp
      simp [updateFirst, hpub, List.find?_cons_of_neg _ hpu', ih hfind]

theorem all_removeFirst (q p : Task → Bool) (ts : List Task) (h : ts.all q = true) :
    (removeFirst p ts).all q = true := by
  induction ts with
  | nil => simp [removeFirst]
  | cons u us ih =>
    simp only [List.all_cons, Bool.and_eq_true] at h
    by_cases hpu : p u = true
    · rw [removeFirst, if_pos hpu]
      exact h.2
    · rw [removeFirst, if_neg hpu]
      simp [List.all_cons, h.1, ih h.2]

theorem all_updateFirst (q p : Task → Bool) (f : Task → Task) (ts : List Task)
    (h : ts.all q = true)
    (hf : ∀ u, u ∈ ts → q u = true → p u = true → q (f u) = true) :
    (updateFirst p f ts).all q = true := by
  induction ts with
  | nil => simp [updateFirst]
  | cons u us ih =>
    simp only [List.all_cons, Bool.and_eq_true] at h
    by_cases hpu : p u = true
    · rw [updateFirst, if_pos hpu]
      simp only [List.all_cons, Bool.and_eq_true]
      exact ⟨hf u (by simp) h.1 hpu, h.2⟩
    · rw [updateFirst, if_neg hpu]
      simp only [List.all_cons, Bool.and_eq_true]
      refine ⟨h.1, ih h.2 ?_⟩
      intro v hv hq hp
      exact hf v (by simp [hv]) hq hp

/-- After `update_task_fields` on a `once` task: disabled, no next run,
and the identity-relevant fields untouched. -/
theorem update_task_fields_once (env : Env) (now : Time) (success : Bool) (t : Task)
    (h : scheduleTypeOf t = some "once") :
    (update_task_fields env now success t).enabled = some false
    ∧ (update_task_fields env now success t).nextRun = none
    ∧ (update_task_fields env now success t).schedule = t.schedule
    ∧ (update_task_fields env now success t).id = t.id := by
  have hb : ((scheduleOf { t with
      lastRun := some (env.toIso now),
      lastStatus := some (if success then "success" else "failed") }).type == some "once") = true := by
    have he : scheduleOf { t with
        lastRun := some (env.toIso now),
        lastStatus := some (if success then "success" else "failed") } = scheduleOf t := rfl
    rw [he, show (scheduleOf t).type = some "once" from h]
    rfl
  simp [update_task_fields, hb]

/-- After `update_task_fields` on a non-`once` task the `enabled` flag
and `id` are untouched. -/
theorem update_task_fields_not_once (env : Env) (now : Time) (success : Bool) (t : Task)
    (h : scheduleTypeOf t ≠ some "once") :
    (update_task_fields env now success t).enabled = t.enabled
    ∧ (update_task_fields env now success t).id = t.id := by
  have hb : ((scheduleOf { t with
      lastRun := some (env.toIso now),
      lastStatus := some (if success then "success" else "failed") }).type == some "once") = false := by
    have he : scheduleOf { t with
        lastRun := some (env.toIso now),
        lastStatus := some (if success then "success" else "failed") } = scheduleOf t := rfl
    rw [he]
    exact beq_eq_false_iff_ne.mpr h
  simp only [update_task_fields, hb]
  cases get_next_run_time env { t with
      lastRun := some (env.toIso now),
      lastStatus := some (if success then "success" else "failed") } now <;> simp

/-! ### C4 -/

/-- C4: after `update_task_after_run` processes a `once` task — whatever
the success flag — the task is `enabled = false` with `nextRun = null`,
and a second post-run update leaves those fields at the same values. -/
theorem C4_once_post_run (env env2 : Env) (reg : Registry) (taskId : String)
    (success success2 : Bool) (now now2 : Time) (t : Task)
    (hfind : reg.tasks.find? (fun u => u.id == some taskId) = some t)
    (honce : scheduleTypeOf t = some "once") :
    ∃ t1 t2,
      (update_task_after_run env reg (some taskId) success now).tasks.find?
        (fun u => u.id == some taskId) = some t1
      ∧ t1.enabled = some false ∧ t1.nextRun = none
      ∧ (update_task_after_run env2 (update_task_after_run env reg (some taskId) success now)
          (some taskId) success2 now2).tasks.find? (fun u => u.id == some taskId) = some t2
      ∧ t2.enabled = some false ∧ t2.nextRun = none := by
  have hp0 := List.find?_some hfind
  have hp : (t.id == some taskId) = true := hp0
  obtain ⟨he1, hn1, hs1, hi1⟩ := update_task_fields_once env now success t honce
  have hf1 : ((update_task_fields env now success t).id == some taskId) = true := by
    rw [hi1]; exact hp
  have hfind1 : (update_task_after_run env reg (some taskId) success now).tasks.find?
      (fun u => u.id == some taskId) = some (update_task_fields env now success t) :=
    find?_updateFirst _ _ _ _ hfind hf1
  have honce1 : scheduleTypeOf (update_task_fields env now success t) = some "once" := by
    unfold scheduleTypeOf scheduleOf
    rw [hs1]
    exact honce
  obtain ⟨he2, hn2, _, hi2⟩ :=
    update_task_fields_once env2 now2 success2 (update_task_fields env now success t) honce1
  have hf2 : ((update_task_fields env2 now2 success2
      (update_task_fields env now success t)).id == some taskId) = true := by
    rw [hi2]; exact hf1
  refine ⟨update_task_fields env now success t,
    update_task_fields env2 now2 success2 (update_task_fields env now success t),
    hfind1, he1, hn1, ?_, he2, hn2⟩
  exact find?_updateFirst _ _ _ _ hfind1 hf2

def cRegOnce : Registry := ⟨[cTaskOnce], none⟩

/-- Witness for C4 at a concrete one-element registry holding a `once`
task. -/
theorem C4_once_post_run_witness :
    ∃ t1 t2,
      (update_task_after_run cEnv cRegOnce (some "t2") true 0).tasks.find?
        (fun u => u.id == some "t2") = some t1
      ∧ t1.enabled = some false ∧ t1.nextRun = none
      ∧ (update_task_after_run cEnv (update_task_after_run cEnv cRegOnce (some "t2") true 0)
          (some "t2") false 1).tasks.find? (fun u => u.id == some "t2") = some t2
      ∧ t2.enabled = some false ∧ t2.nextRun = none := by
  exact C4_once_post_run cEnv cEnv cRegOnce "t2" true false 0 1 cTaskOnce rfl rfl

/-! ### C5 -/

def cTaskDisabledInterval : Task :=
  { id := some "t1", schedule := some ⟨some "interval", some "1m"⟩,
    enabled := some false, lastRun := none, lastStatus := none, nextRun := none }

def cRegDisabled : Registry := ⟨[cTaskDisabledInterval], none⟩

/-- Counterexample to C5 as stated: manually running a disabled interval
task through `run_task` ends in `update_task_after_run`, which recomputes
`nextRun` without looking at `enabled`; the resulting registry holds a
task with `enabled = false` and `nextRun` non-null, so the invariant is
not preserved by `run_task`. -/
theorem C5_counterexample :
    registryInvariant cRegDisabled = true
    ∧ registryInvariant (run_task cEnv cRegDisabled "t1" false true true 0) = false := by
  constructor
  · decide
  · decide

/-- C5 (amended): the invariant `enabled == false ⇒ nextRun == null` is
preserved by disabling or deleting through `cancel_task` and by
re-enabling through `enable_task`; it is preserved by the post-run
update only for tasks that are `once`-scheduled or not disabled —
running a disabled non-`once` task (reachable via `run_task`) breaks
it. -/
theorem C5_invariant_preservation (env : Env) (reg : Registry) (taskId : String)
    (delete success : Bool) (now : Time)
    (hinv : registryInvariant reg = true) :
    registryInvariant (cancel_task reg taskId delete) = true
    ∧ registryInvariant (enable_task env reg taskId now) = true
    ∧ ((∀ t ∈ reg.tasks, t.id = some taskId →
          scheduleTypeOf t = some "once" ∨ t.enabled ≠ some false) →
        registryInvariant (update_task_after_run env reg (some taskId) success now) = true) := by
  refine ⟨?_, ?_, ?_⟩
  · unfold cancel_task
    by_cases hd : delete = true
    · rw [hd, if_pos rfl]
      exact all_removeFirst _ _ _ hinv
    · have : delete = false := by revert hd; cases delete <;> simp
      rw [this]
      simp only [if_false, Bool.false_eq_true]
      refine all_updateFirst _ _ _ _ hinv ?_
      intro u _ _ _
      simp [invPred]
  · unfold enable_task registryInvariant
    have : ∀ ts : List Task, ts.all invPred = true →
        (enableFirst env taskId now ts).all invPred = true := by
      intro ts
      induction ts with
      | nil => simp [enableFirst]
      | cons u us ih =>
        intro h
        simp only [List.all_cons, Bool.and_eq_true] at h
        by_cases hid : (u.id == some taskId) = true
        · rw [enableFirst, if_pos hid]
          by_cases hen : u.enabled.getD false = true
          · rw [if_pos hen]
            simp [List.all_cons, h.1, h.2]
          · rw [if_neg hen]
            simp only [List.all_cons, Bool.and_eq_true]
            exact ⟨by simp [invPred], h.2⟩
        · rw [enableFirst, if_neg hid]
          simp [List.all_cons, h.1, ih h.2]
    exact this reg.tasks hinv
  · intro hside
    refine all_updateFirst _ _ _ _ hinv ?_
    intro u hu hq hp
    have huid : u.id = some taskId := by
      have := hp
      simpa using this
    rcases hside u hu huid with honce | hen
    · obtain ⟨he, hn, _, _⟩ := update_task_fields_once env now success u honce
      simp [invPred, he, hn]
    · by_cases htype : scheduleTypeOf u = some "once"
      · obtain ⟨he, hn, _, _⟩ := update_task_fields_once env now success u htype
        simp [invPred, he, hn]
      · obtain ⟨he, _⟩ := update_task_fields_not_once env now success u htype
        have : (u.enabled == some false) = false := beq_eq_false_iff_ne.mpr hen
        simp [invPred, he, this]

/-- Witness for C5 at a concrete registry: disabling, re-enabling and a
post-run update on a `once` task all preserve the invariant. -/
theorem C5_invariant_preservation_witness :
    registryInvariant (cancel_task cRegOnce "t2" false) = true
    ∧ registryInvariant (enable_task cEnv cRegOnce "t2" 0) = true
    ∧ registryInvariant (update_task_after_run cEnv cRegOnce (some "t2") true 0) = true := by
  have h := C5_invariant_preservation cEnv cRegOnce "t2" false true 0 (by decide)
  exact ⟨h.1, h.2.1, h.2.2 (by intro t ht hid; left; cases ht with
    | head => decide
    | tail _ h2 => cases h2)⟩

/-! ### C6 (timeout and missing backend are contained failures) -/

theorem check_and_run_aux_ids (env : Env) (exec : Task → Bool) (now : Time)
    (ts : List Task) (st : Registry) :
    (check_and_run_aux env exec now ts st).2 =
      (ts.filter (fun t => is_task_due env t now)).map Task.id := by
  induction ts generalizing st with
  | nil => simp [check_and_run_aux]
  | cons u us ih =>
    by_cases hdue : is_task_due env u now = true
    · simp [check_and_run_aux, hdue, List.filter_cons, ih]
    · have hdue' : is_task_due env u now = false := by revert hdue; cases is_task_due env u now <;> simp
      simp [check_and_run_aux, hdue', List.filter_cons, ih]

/-- C6: a backend invocation that exceeds the fixed 300-second timeout
makes `execute_task` report failure (the exception is caught, it does
not escape to the loop); a missing backend executable also reports
failure, with an event distinguishable from an ordinary non-zero exit;
and one `check_and_run` pass visits every due task in order no matter
what each execution's outcome is. -/
theorem C6_execute_failures (runtimeSecs : Nat) (exitCode : Int) (out err : String)
    (htimeout : timeoutSeconds < runtimeSecs) :
    execute_task true (runBackend runtimeSecs exitCode out err) = (false, .taskTimeout)
    ∧ execute_task true .backendMissing = (false, .backendMissingError)
    ∧ NotifyEvent.backendMissingError ≠ NotifyEvent.taskFailedNonZero
    ∧ ∀ (env : Env) (exec : Task → Bool) (reg : Registry) (now : Time),
        (check_and_run env exec reg now).2 =
          (reg.tasks.filter (fun t => is_task_due env t now)).map Task.id := by
  refine ⟨?_, rfl, (by decide), ?_⟩
  · unfold runBackend
    rw [if_pos htimeout]
    rfl
  · intro env exec reg now
    exact check_and_run_aux_ids env exec now reg.tasks reg

/-- Witness for C6: a 301-second run times out and is classified as a
failed execution. -/
theorem C6_execute_failures_witness :
    execute_task true (runBackend 301 0 "out" "err") = (false, NotifyEvent.taskTimeout) :=
  (C6_execute_failures 301 0 "out" "err" (by decide)).1

/-! ### C8 (how `save_registry` writes the file)

`save_registry` performs file-system effects; they are modelled as the
trace of operations the Python code issues, with an interpreter
`fsApply` giving the file contents after each operation, so that
interruption can be modelled as stopping after a prefix of the trace. -/

/-- One file-system operation. -/
inductive FsOp where
  | mkdirParents (path : String)
  | openTruncate (path : String)
  | writeChar (path : String) (c : Char)
  | closeFile (path : String)
  | rename (src dst : String)

/-- `".scheduled-tasks"` relative to the working directory. -/
def baseDirPath : String := ".scheduled-tasks"

/-- The registry file path. -/
def registryPath : String := ".scheduled-tasks/registry.json"

/-- File-system contents: path to file content, `none` when absent. -/
def FsState := String → Option (List Char)

/-- Effect of one operation on the file contents. -/
def fsApply (st : FsState) : FsOp → FsState
  | .mkdirParents _ => st
  | .openTruncate p => fun q => if q = p then some [] else st q
  | .writeChar p c => fun q => if q = p then some ((st p).getD [] ++ [c]) else st q
  | .closeFile _ => st
  | .rename src dst => fun q =>
      if q = dst then st src else if q = src then none else st q

/-- Run a trace of operations. -/
def runFs (st : FsState) (ops : List FsOp) : FsState := ops.foldl fsApply st

/-- The operation trace of `save_registry(registry)`: make the parent
directory, `open(path, "w")` (truncating the file in place), stream the
serialized text, close.  There is no temporary file and no rename. -/
def save_registry_ops (content : List Char) : List FsOp :=
  FsOp.mkdirParents baseDirPath :: FsOp.openTruncate registryPath ::
    (content.map (FsOp.writeChar registryPath) ++ [FsOp.closeFile registryPath])

/-- Whether a trace contains a rename step. -/
def usesRename (ops : List FsOp) : Bool :=
  ops.any fun op =>
    match op with
    | .rename _ _ => true
    | _ => false

/-- Modelled from the spec: "write-then-rename or equivalent atomic
replace to avoid leaving a half-written file if the process is
interrupted" — at every interruption point (prefix of the trace), the
target file holds either its previous content or the complete new
content, never anything in between. -/
def atomicReplaceOk (ops : List FsOp) (target : String) (st0 : FsState)
    (newContent : List Char) : Prop :=
  ∀ k, runFs st0 (ops.take k) target = st0 target
    ∨ runFs st0 (ops.take k) target = some newContent

/-- The initial file system for the C8 counterexample: the registry file
already holds previous content. -/
def cOldSt : FsState := fun p => if p = registryPath then some ['O', 'L', 'D'] else none

/-- Counterexample to C8 as stated: `save_registry` writes the registry
file in place; its trace has no rename, and interrupting it after the
first written character leaves the file holding `"N"` — neither the old
`"OLD"` nor the new `"NEW"` content, a half-written registry file. -/
theorem C8_counterexample :
    usesRename (save_registry_ops ['N', 'E', 'W']) = false
    ∧ ¬ atomicReplaceOk (save_registry_ops ['N', 'E', 'W']) registryPath cOldSt ['N', 'E', 'W'] := by
  constructor
  · decide
  · intro h
    rcases h 3 with h3 | h3
    · exact absurd h3 (by decide)
    · exact absurd h3 (by decide)

theorem runFs_writeChars (cs : List Char) (st : FsState) (acc : List Char)
    (hst : st registryPath = some acc) :
    runFs st (cs.map (FsOp.writeChar registryPath)) registryPath = some (acc ++ cs) := by
  induction cs generalizing st acc with
  | nil => simpa [runFs] using hst
  | cons c cs' ih =>
    have hstep : (fsApply st (FsOp.writeChar registryPath c)) registryPath
        = some (acc ++ [c]) := by
      simp [fsApply, hst]
    have := ih (fsApply st (FsOp.writeChar registryPath c)) (acc ++ [c]) hstep
    simpa [runFs, List.append_assoc] using this

/-- C8 (amended): `save_registry` replaces the previous persisted state
wholesale — the completed trace leaves exactly the new serialized
content — but it does so by truncating and rewriting the registry file
in place, with no write-then-rename or equivalent atomic replace, so a
process interrupted mid-save can leave a half-written (truncated or
partial) registry file behind. -/
theorem C8_save_writes_in_place (st0 : FsState) (content : List Char) :
    usesRename (save_registry_ops content) = false
    ∧ runFs st0 (save_registry_ops content) registryPath = some content
    ∧ runFs st0 ((save_registry_ops content).take 2) registryPath = some [] := by
  refine ⟨?_, ?_, ?_⟩
  · simp [usesRename, save_registry_ops, List.any_map, Function.comp, List.any_eq_false]
  · have h0 : (fsApply (fsApply st0 (FsOp.mkdirParents baseDirPath))
        (FsOp.openTruncate registryPath)) registryPath = some [] := by
      simp [fsApply]
    have hw := runFs_writeChars content
      (fsApply (fsApply st0 (FsOp.mkdirParents baseDirPath)) (FsOp.openTruncate registryPath)) [] h0
    unfold runFs at hw
    unfold save_registry_ops runFs
    simp only [List.foldl_cons, List.foldl_append, List.foldl_nil]
    rw [show ∀ st : FsState, fsApply st (FsOp.closeFile registryPath) = st from fun st => rfl]
    simpa using hw
  · simp [save_registry_ops, runFs, fsApply]

/-! ### C9: JSON round trip of the registry

`load_registry` / `save_registry` persist the registry as a JSON text
document (`json.load` / `json.dump`).  The document is modelled by the
`Json` type, with an executable serializer and parser, and the round
trip `parse (serialize doc) = doc` is proved, so that saving a registry
and reloading it is shown to reproduce the same task records. -/

/-- A JSON document (numbers restricted to integers, which is all the
registry stores). -/
inductive Json where
  | null
  | bool (b : Bool)
  | num (n : Int)
  | str (s : String)
  | arr (elems : List Json)
  | obj (fields : List (String × Json))

/-- Escape a character for a JSON string literal. -/
def escapeChar (c : Char) : List Char :=
  if c = '"' ∨ c = '\\' then ['\\', c] else [c]

/-- Escape a whole string body. -/
def escapeStr : List Char → List Char
  | [] => []
  | c :: cs => escapeChar c ++ escapeStr cs

/-- The characters of the `null` keyword. -/
def jsonLitNull : List Char := ['n', 'u', 'l', 'l']

/-- The characters of the `true` keyword. -/
def jsonLitTrue : List Char := ['t', 'r', 'u', 'e']

/-- The characters of the `false` keyword. -/
def jsonLitFalse : List Char := ['f', 'a', 'l', 's', 'e']

mutual

/-- Serialize a JSON document (compact form). -/
def serialize : Json → List Char
  | .null => jsonLitNull
  | .bool b => if b then jsonLitTrue else jsonLitFalse
  | .num n => intChars n
  | .str s => '"' :: (escapeStr s.data ++ ['"'])
  | .arr xs => '[' :: (serializeElems xs ++ [']'])
  | .obj fs => '\x7b' :: (serializeFields fs ++ ['\x7d'])

/-- Comma-separated serialization of array elements. -/
def serializeElems : List Json → List Char
  | [] => []
  | [x] => serialize x
  | x :: xs => serialize x ++ ',' :: serializeElems xs

/-- Comma-separated serialization of object fields. -/
def serializeFields : List (String × Json) → List Char
  | [] => []
  | [(k, v)] => '"' :: (escapeStr k.data ++ '"' :: ':' :: serialize v)
  | (k, v) :: fs =>
    ('"' :: (escapeStr k.data ++ '"' :: ':' :: serialize v)) ++ ',' :: serializeFields fs

end

/-- Strip an expected literal prefix. -/
def expectChars : List Char → List Char → Option (List Char)
  | [], cs => some cs
  | _ :: _, [] => none
  | e :: es, c :: cs => if c = e then expectChars es cs else none

/-- Parse a JSON string body up to the closing quote, undoing escapes. -/
def parseStrBody : List Char → Option (List Char × List Char)
  | [] => none
  | c :: rest =>
    if c = '\\' then
      match rest with
      | [] => none
      | c2 :: rest2 => (parseStrBody rest2).map fun p => (c2 :: p.1, p.2)
    else if c = '"' then some ([], rest)
    else (parseStrBody rest).map fun p => (c :: p.1, p.2)

/-- Split a leading run of decimal digits. -/
def takeDigs : List Char → List Char × List Char
  | [] => ([], [])
  | c :: cs =>
    if isDig c then ((takeDigs cs).1.cons c, (takeDigs cs).2) else ([], c :: cs)

/-- Parse a non-empty leading digit run as a natural number. -/
def parseNum (cs : List Char) : Option (Nat × List Char) :=
  if (takeDigs cs).1.isEmpty then none else some (valMS (takeDigs cs).1, (takeDigs cs).2)

mutual

/-- Fuel-indexed JSON document parser. -/
def parseJ : Nat → List Char → Option (Json × List Char)
  | 0, _ => none
  | fuel+1, cs =>
    match cs with
    | [] => none
    | c :: rest =>
      if c = 'n' then (expectChars ['u', 'l', 'l'] rest).map fun r => (.null, r)
      else if c = 't' then (expectChars ['r', 'u', 'e'] rest).map fun r => (.bool true, r)
      else if c = 'f' then (expectChars ['a', 'l', 's', 'e'] rest).map fun r => (.bool false, r)
      else if c = '"' then (parseStrBody rest).map fun p => (.str (String.mk p.1), p.2)
      else if c = '-' then (parseNum rest).map fun p => (.num (-(p.1 : Int)), p.2)
      else if c = '[' then
        match rest with
        | [] => none
        | c2 :: rest2 =>
          if c2 = ']' then some (.arr [], rest2)
          else (parseElems fuel (c2 :: rest2)).map fun p => (.arr p.1, p.2)
      else if c = '\x7b' then
        match rest with
        | [] => none
        | c2 :: rest2 =>
          if c2 = '\x7d' then some (.obj [], rest2)
          else (parseFields fuel (c2 :: rest2)).map fun p => (.obj p.1, p.2)
      else if isDig c then (parseNum (c :: rest)).map fun p => (.num (p.1 : Int), p.2)
      else none

/-- Parse one-or-more comma-separated elements and the closing bracket. -/
def parseElems : Nat → List Char → Option (List Json × List Char)
  | 0, _ => none
  | fuel+1, cs =>
    match parseJ fuel cs with
    | none => none
    | some (j, r) =>
      match r with
      | [] => none
      | c :: r2 =>
        if c = ',' then
          match parseElems fuel r2 with
          | none => none
          | some (js, r3) => some (j :: js, r3)
        else if c = ']' then some ([j], r2)
        else none

/-- Parse one-or-more comma-separated fields and the closing brace. -/
def parseFields : Nat → List Char → Option (List (String × Json) × List Char)
  | 0, _ => none
  | fuel+1, cs =>
    match cs with
    | [] => none
    | c :: cs2 =>
      if c = '"' then
        match parseStrBody cs2 with
        | none => none
        | some (k, r) =>
          match r with
          | [] => none
          | c2 :: r2 =>
            if c2 = ':' then
              match parseJ fuel r2 with
              | none => none
              | some (v, r3) =>
                match r3 with
                | [] => none
                | c3 :: r4 =>
                  if c3 = ',' then
                    match parseFields fuel r4 with
                    | none => none
                    | some (fs, r5) => some ((String.mk k, v) :: fs, r5)
                  else if c3 = '\x7d' then some ([(String.mk k, v)], r4)
                  else none
            else none
      else none

end

mutual

/-- Parser-fuel measure of a document. -/
def jsize : Json → Nat
  | .null => 1
  | .bool _ => 1
  | .num _ => 1
  | .str _ => 1
  | .arr xs => jsizeL xs + 1
  | .obj fs => jsizeF fs + 1

/-- Fuel measure of array elements. -/
def jsizeL : List Json → Nat
  | [] => 0
  | x :: xs => jsize x + jsizeL xs + 1

/-- Fuel measure of object fields. -/
def jsizeF : List (String × Json) → Nat
  | [] => 0
  | (_, v) :: fs => jsize v + jsizeF fs + 1

end

/-- Whether a character list does not begin with a decimal digit (the
delimiter condition under which the number parser stops in the right
place). -/
def noDigStart : List Char → Bool
  | [] => true
  | c :: _ => !isDig c

/-! #### Digit and number lemmas -/

theorem charToDigit_digitToChar (d : Nat) (hd : d < 10) :
    charToDigit (digitToChar d) = d := by
  interval_cases d <;> rfl

theorem isDig_digitToChar (d : Nat) (hd : d < 10) : isDig (digitToChar d) = true := by
  interval_cases d <;> rfl

theorem natCharsAux_all_digits (fuel n : Nat) : (natCharsAux fuel n).all isDig = true := by
  induction fuel generalizing n with
  | zero => rfl
  | succ f ih =>
    by_cases hn : n = 0
    · simp [natCharsAux, hn]
    · simp only [natCharsAux, if_neg hn, List.all_cons, Bool.and_eq_true]
      exact ⟨isDig_digitToChar _ (Nat.mod_lt n (by norm_num)), ih (n / 10)⟩

theorem numChars_all_digits (m : Nat) : (numChars m).all isDig = true := by
  by_cases hm : m = 0
  · simp [numChars, hm, isDig]
  · simp only [numChars, if_neg hm, List.all_eq_true]
    intro c hc
    rw [List.mem_reverse] at hc
    have := natCharsAux_all_digits m m
    rw [List.all_eq_true] at this
    exact this c hc

theorem numChars_ne_nil (m : Nat) : numChars m ≠ [] := by
  by_cases hm : m = 0
  · simp [numChars, hm]
  · simp only [numChars, if_neg hm]
    obtain ⟨f, rfl⟩ : ∃ f, m = f + 1 := ⟨m - 1, by omega⟩
    simp [natCharsAux]

theorem valMS_append_one (l : List Char) (c : Char) :
    valMS (l ++ [c]) = valMS l * 10 + charToDigit c := by
  simp [valMS, List.foldl_append]

theorem valMS_natCharsAux (fuel n : Nat) (h : n ≤ fuel) :
    valMS ((natCharsAux fuel n).reverse) = n := by
  induction fuel generalizing n with
  | zero =>
    have hn : n = 0 := by omega
    simp [natCharsAux, hn, valMS]
  | succ f ih =>
    by_cases hn : n = 0
    · simp [natCharsAux, hn, valMS]
    · simp only [natCharsAux, if_neg hn, List.reverse_cons]
      rw [valMS_append_one]
      have hdiv : n / 10 ≤ f := by
        have : n / 10 < n := Nat.div_lt_self (by omega) (by norm_num)
        omega
      rw [ih (n / 10) hdiv, charToDigit_digitToChar _ (Nat.mod_lt n (by norm_num))]
      omega

theorem valMS_numChars (m : Nat) : valMS (numChars m) = m := by
  by_cases hm : m = 0
  · simp [numChars, hm, valMS, charToDigit]
  · simp only [numChars, if_neg hm]
    exact valMS_natCharsAux m m le_rfl

theorem takeDigs_append (ds rest : List Char) (hds : ds.all isDig = true)
    (hrest : noDigStart rest = true) : takeDigs (ds ++ rest) = (ds, rest) := by
  induction ds with
  | nil =>
    cases rest with
    | nil => rfl
    | cons c r =>
      have hc : isDig c = false := by
        simp only [noDigStart] at hrest
        revert hrest
        cases isDig c <;> simp
      simp [takeDigs, hc]
  | cons d ds' ih =>
    simp only [List.all_cons, Bool.and_eq_true] at hds
    simp [takeDigs, hds.1, ih hds.2]

theorem parseNum_spec (ds rest : List Char) (hds : ds.all isDig = true)
    (hne : ds ≠ []) (hrest : noDigStart rest = true) :
    parseNum (ds ++ rest) = some (valMS ds, rest) := by
  unfold parseNum
  rw [takeDigs_append ds rest hds hrest]
  cases ds with
  | nil => exact absurd rfl hne
  | cons d ds' => rfl

theorem parseStrBody_backslash (c : Char) (rest : List Char) :
    parseStrBody ('\\' :: c :: rest) = (parseStrBody rest).map fun p => (c :: p.1, p.2) := by
  rw [parseStrBody.eq_def]
  simp

theorem parseStrBody_quote (rest : List Char) :
    parseStrBody ('"' :: rest) = some ([], rest) := by
  rw [parseStrBody.eq_def]
  simp

theorem parseStrBody_other (c : Char) (rest : List Char) (h1 : c ≠ '\\') (h2 : c ≠ '"') :
    parseStrBody (c :: rest) = (parseStrBody rest).map fun p => (c :: p.1, p.2) := by
  rw [parseStrBody.eq_def]
  simp [h1, h2]

theorem parseStrBody_escape (cs : List Char) : ∀ rest,
    parseStrBody (escapeStr cs ++ '"' :: rest) = some (cs, rest) := by
  induction cs with
  | nil =>
    intro rest
    rw [show escapeStr [] = [] from rfl, List.nil_append, parseStrBody_quote]
  | cons c cs' ih =>
    intro rest
    by_cases hc : c = '"' ∨ c = '\\'
    · have he : escapeChar c = ['\\', c] := by simp [escapeChar, hc]
      rw [show escapeStr (c :: cs') = escapeChar c ++ escapeStr cs' from rfl, he]
      simp only [List.cons_append, List.append_assoc, List.nil_append]
      rw [parseStrBody_backslash, ih rest]
      rfl
    · push_neg at hc
      have he : escapeChar c = [c] := by
        simp only [escapeChar]
        rw [if_neg]
        simp [hc.1, hc.2]
      rw [show escapeStr (c :: cs') = escapeChar c ++ escapeStr cs' from rfl, he]
      simp only [List.cons_append, List.append_assoc, List.nil_append]
      rw [parseStrBody_other c _ hc.2 hc.1, ih rest]
      rfl

theorem string_mk_data (s : String) : String.mk s.data = s := rfl

/-! #### Head-character classification of serialized documents -/

theorem isDig_ne_delims (c : Char) (h : isDig c = true) : c ≠ ']' ∧ c ≠ '\x7d' := by
  constructor <;> rintro rfl <;> simp [isDig] at h

theorem isDig_ne_starters (c : Char) (h : isDig c = true) :
    c ≠ 'n' ∧ c ≠ 't' ∧ c ≠ 'f' ∧ c ≠ '"' ∧ c ≠ '-' ∧ c ≠ '[' ∧ c ≠ '\x7b' := by
  refine ⟨?_, ?_, ?_, ?_, ?_, ?_, ?_⟩ <;> rintro rfl <;> simp [isDig] at h

theorem numChars_head (m : Nat) :
    ∃ d ds, numChars m = d :: ds ∧ isDig d = true := by
  obtain ⟨d, ds, hds⟩ := List.exists_cons_of_ne_nil (numChars_ne_nil m)
  refine ⟨d, ds, hds, ?_⟩
  have := numChars_all_digits m
  rw [hds, List.all_cons, Bool.and_eq_true] at this
  exact this.1

theorem serialize_head (j : Json) :
    ∃ c cs, serialize j = c :: cs ∧ c ≠ ']' ∧ c ≠ '\x7d' := by
  cases j with
  | null => exact ⟨'n', ['u', 'l', 'l'], by simp [serialize, jsonLitNull], by decide, by decide⟩
  | bool b => cases b with
    | true =>
      exact ⟨'t', ['r', 'u', 'e'], by simp [serialize, jsonLitTrue], by decide, by decide⟩
    | false =>
      exact ⟨'f', ['a', 'l', 's', 'e'], by simp [serialize, jsonLitFalse], by decide, by decide⟩
  | num n =>
    by_cases hn : n < 0
    · exact ⟨'-', numChars n.natAbs, by simp [serialize, intChars, hn], by decide, by decide⟩
    · obtain ⟨d, ds, hds, hd⟩ := numChars_head n.toNat
      obtain ⟨h1, h2⟩ := isDig_ne_delims d hd
      exact ⟨d, ds, by simp [serialize, intChars, hn, hds], h1, h2⟩
  | str s => exact ⟨'"', escapeStr s.data ++ ['"'], by simp [serialize], by decide, by decide⟩
  | arr xs => exact ⟨'[', serializeElems xs ++ [']'], by simp [serialize], by decide, by decide⟩
  | obj fs =>
    exact ⟨'\x7b', serializeFields fs ++ ['\x7d'], by simp [serialize], by decide, by decide⟩

theorem serializeElems_cons (x : Json) (xs : List Json) :
    ∃ tail, serializeElems (x :: xs) = serialize x ++ tail := by
  cases xs with
  | nil => exact ⟨[], by simp [serializeElems]⟩
  | cons y ys => exact ⟨',' :: serializeElems (y :: ys), by simp [serializeElems]⟩

/-! #### Positivity and fuel bounds -/

theorem jsize_pos (j : Json) : 1 ≤ jsize j := by
  cases j <;> simp [jsize]

/-! #### Branch lemmas for the parser -/

theorem parseJ_arr_nil (f : Nat) (rest : List Char) :
    parseJ (f+1) ('[' :: ']' :: rest) = some (Json.arr [], rest) := by
  rw [parseJ.eq_def]
  simp

theorem parseJ_arr_go (f : Nat) (c2 : Char) (rest2 : List Char) (h : c2 ≠ ']') :
    parseJ (f+1) ('[' :: c2 :: rest2) =
      (parseElems f (c2 :: rest2)).map fun p => (Json.arr p.1, p.2) := by
  rw [parseJ.eq_def]
  simp [h]

theorem parseJ_obj_nil (f : Nat) (rest : List Char) :
    parseJ (f+1) ('\x7b' :: '\x7d' :: rest) = some (Json.obj [], rest) := by
  rw [parseJ.eq_def]
  simp

theorem parseJ_obj_go (f : Nat) (c2 : Char) (rest2 : List Char) (h : c2 ≠ '\x7d') :
    parseJ (f+1) ('\x7b' :: c2 :: rest2) =
      (parseFields f (c2 :: rest2)).map fun p => (Json.obj p.1, p.2) := by
  rw [parseJ.eq_def]
  simp [h]

theorem serializeFields_head (k : String) (v : Json) (fs : List (String × Json)) :
    ∃ tail, serializeFields ((k, v) :: fs) = '"' :: tail := by
  cases fs with
  | nil => exact ⟨escapeStr k.data ++ '"' :: ':' :: serialize v, by simp [serializeFields]⟩
  | cons kv2 fs3 =>
    exact ⟨(escapeStr k.data ++ '"' :: ':' :: serialize v) ++ ',' :: serializeFields (kv2 :: fs3),
      by simp [serializeFields]⟩

/-! #### The round trip -/

mutual

/-- Parsing inverts serialization, for any document, given enough fuel
and a following delimiter that is not a digit. -/
theorem parse_serialize (j : Json) : ∀ fuel rest, jsize j ≤ fuel → noDigStart rest = true →
    parseJ fuel (serialize j ++ rest) = some (j, rest) := by
  cases j with
  | null =>
    intro fuel rest hfuel _
    have h1 : 1 ≤ fuel := le_trans (jsize_pos _) hfuel
    obtain ⟨f, rfl⟩ : ∃ f, fuel = f + 1 := ⟨fuel - 1, by omega⟩
    rw [show serialize Json.null = ['n', 'u', 'l', 'l'] from by simp [serialize, jsonLitNull]]
    simp [parseJ, expectChars]
  | bool b =>
    intro fuel rest hfuel _
    have h1 : 1 ≤ fuel := le_trans (jsize_pos _) hfuel
    obtain ⟨f, rfl⟩ : ∃ f, fuel = f + 1 := ⟨fuel - 1, by omega⟩
    cases b with
    | true =>
      rw [show serialize (Json.bool true) = ['t', 'r', 'u', 'e'] from by
        simp [serialize, jsonLitTrue]]
      simp [parseJ, expectChars]
    | false =>
      rw [show serialize (Json.bool false) = ['f', 'a', 'l', 's', 'e'] from by
        simp [serialize, jsonLitFalse]]
      simp [parseJ, expectChars]
  | num n =>
    intro fuel rest hfuel hrest
    have h1 : 1 ≤ fuel := le_trans (jsize_pos _) hfuel
    obtain ⟨f, rfl⟩ : ∃ f, fuel = f + 1 := ⟨fuel - 1, by omega⟩
    by_cases hn : n < 0
    · have hserial : serialize (Json.num n) = '-' :: numChars n.natAbs := by
        simp [serialize, intChars, hn]
      rw [hserial, parseJ.eq_def]
      simp only [List.cons_append]
      rw [if_neg (by decide), if_neg (by decide), if_neg (by decide), if_neg (by decide),
        if_pos (by trivial)]
      rw [parseNum_spec _ _ (numChars_all_digits _) (numChars_ne_nil _) hrest]
      simp [valMS_numChars]
      rw [abs_of_neg hn]
      exact neg_neg n
    · have hserial : serialize (Json.num n) = numChars n.toNat := by
        simp [serialize, intChars]
        omega
      obtain ⟨d, ds, hds, hd⟩ := numChars_head n.toNat
      obtain ⟨k1, k2, k3, k4, k5, k6, k7⟩ := isDig_ne_starters d hd
      rw [hserial, hds, parseJ.eq_def]
      simp only [List.cons_append]
      rw [if_neg k1, if_neg k2, if_neg k3, if_neg k4, if_neg k5, if_neg k6, if_neg k7,
        if_pos hd]
      rw [show d :: (ds ++ rest) = (d :: ds) ++ rest from rfl, ← hds]
      rw [parseNum_spec _ _ (numChars_all_digits _) (numChars_ne_nil _) hrest]
      simp [valMS_numChars]
      omega
  | str s =>
    intro fuel rest hfuel _
    have h1 : 1 ≤ fuel := le_trans (jsize_pos _) hfuel
    obtain ⟨f, rfl⟩ : ∃ f, fuel = f + 1 := ⟨fuel - 1, by omega⟩
    have hserial : serialize (Json.str s) ++ rest = '"' :: (escapeStr s.data ++ '"' :: rest) := by
      simp [serialize]
    rw [hserial, parseJ.eq_def]
    simp [parseStrBody_escape]
  | arr xs =>
    intro fuel rest hfuel _
    have h1 : 1 ≤ fuel := le_trans (jsize_pos _) hfuel
    obtain ⟨f, rfl⟩ : ∃ f, fuel = f + 1 := ⟨fuel - 1, by omega⟩
    cases xs with
    | nil =>
      rw [show serialize (Json.arr []) ++ rest = '[' :: ']' :: rest from by
        simp [serialize, serializeElems]]
      exact parseJ_arr_nil f rest
    | cons x xs2 =>
      obtain ⟨c0, cs0, hc0, hne1, _⟩ := serialize_head x
      obtain ⟨tail, htail⟩ := serializeElems_cons x xs2
      have hsz : jsizeL (x :: xs2) ≤ f := by
        have hj : jsize (Json.arr (x :: xs2)) = jsizeL (x :: xs2) + 1 := by simp [jsize]
        omega
      have hE := parse_serialize_elems (x :: xs2) f rest (by simp) hsz
      have hshape : serializeElems (x :: xs2) ++ ']' :: rest
          = c0 :: (cs0 ++ tail ++ ']' :: rest) := by
        rw [htail, hc0]
        simp
      rw [show serialize (Json.arr (x :: xs2)) ++ rest
          = '[' :: (serializeElems (x :: xs2) ++ ']' :: rest) from by simp [serialize]]
      rw [hshape, parseJ_arr_go f c0 _ hne1, ← hshape, hE]
      rfl
  | obj fs =>
    intro fuel rest hfuel _
    have h1 : 1 ≤ fuel := le_trans (jsize_pos _) hfuel
    obtain ⟨f, rfl⟩ : ∃ f, fuel = f + 1 := ⟨fuel - 1, by omega⟩
    cases fs with
    | nil =>
      rw [show serialize (Json.obj []) ++ rest = '\x7b' :: '\x7d' :: rest from by
        simp [serialize, serializeFields]]
      exact parseJ_obj_nil f rest
    | cons kv fs2 =>
      obtain ⟨k, v⟩ := kv
      obtain ⟨tail, htail⟩ := serializeFields_head k v fs2
      have hsz : jsizeF ((k, v) :: fs2) ≤ f := by
        have hj : jsize (Json.obj ((k, v) :: fs2)) = jsizeF ((k, v) :: fs2) + 1 := by simp [jsize]
        omega
      have hF := parse_serialize_fields ((k, v) :: fs2) f rest (by simp) hsz
      have hshape : serializeFields ((k, v) :: fs2) ++ '\x7d' :: rest
          = '"' :: (tail ++ '\x7d' :: rest) := by
        rw [htail]
        simp
      rw [show serialize (Json.obj ((k, v) :: fs2)) ++ rest
          = '\x7b' :: (serializeFields ((k, v) :: fs2) ++ '\x7d' :: rest) from by simp [serialize]]
      rw [hshape, parseJ_obj_go f '"' _ (by decide), ← hshape, hF]
      rfl

/-- Parsing inverts serialization of a non-empty element list followed by
the closing bracket. -/
theorem parse_serialize_elems (xs : List Json) : ∀ fuel rest, xs ≠ [] → jsizeL xs ≤ fuel →
    parseElems fuel (serializeElems xs ++ ']' :: rest) = some (xs, rest) := by
  cases xs with
  | nil =>
    intro fuel rest hne _
    exact absurd rfl hne
  | cons x xs2 =>
    intro fuel rest _ hsz
    rw [show jsizeL (x :: xs2) = jsize x + jsizeL xs2 + 1 from by simp [jsizeL]] at hsz
    have hxpos := jsize_pos x
    obtain ⟨f, rfl⟩ : ∃ f, fuel = f + 1 := ⟨fuel - 1, by omega⟩
    cases xs2 with
    | nil =>
      have hx := parse_serialize x f (']' :: rest)
        (by rw [show jsizeL ([] : List Json) = 0 from by simp [jsizeL]] at hsz; omega) (by rfl)
      rw [show serializeElems [x] = serialize x from by simp [serializeElems]]
      rw [parseElems.eq_def]
      simp [hx]
    | cons y ys =>
      have hLpos : 1 ≤ jsizeL (y :: ys) := by
        rw [show jsizeL (y :: ys) = jsize y + jsizeL ys + 1 from by simp [jsizeL]]
        omega
      have hx := parse_serialize x f (',' :: (serializeElems (y :: ys) ++ ']' :: rest))
        (by omega) (by rfl)
      have hrec := parse_serialize_elems (y :: ys) f rest (by simp) (by omega)
      rw [show serializeElems (x :: y :: ys) ++ ']' :: rest
          = serialize x ++ ',' :: (serializeElems (y :: ys) ++ ']' :: rest) from by
        simp [serializeElems]]
      rw [parseElems.eq_def]
      simp [hx, hrec]

/-- Parsing inverts serialization of a non-empty field list followed by
the closing brace. -/
theorem parse_serialize_fields (fs : List (String × Json)) :
    ∀ fuel rest, fs ≠ [] → jsizeF fs ≤ fuel →
      parseFields fuel (serializeFields fs ++ '\x7d' :: rest) = some (fs, rest) := by
  cases fs with
  | nil =>
    intro fuel rest hne _
    exact absurd rfl hne
  | cons kv fs2 =>
    obtain ⟨k, v⟩ := kv
    intro fuel rest _ hsz
    rw [show jsizeF ((k, v) :: fs2) = jsize v + jsizeF fs2 + 1 from by simp [jsizeF]] at hsz
    have hvpos := jsize_pos v
    obtain ⟨f, rfl⟩ : ∃ f, fuel = f + 1 := ⟨fuel - 1, by omega⟩
    cases fs2 with
    | nil =>
      have hv := parse_serialize v f ('\x7d' :: rest)
        (by rw [show jsizeF ([] : List (String × Json)) = 0 from by simp [jsizeF]] at hsz; omega)
        (by rfl)
      rw [show serializeFields [(k, v)] ++ '\x7d' :: rest
          = '"' :: (escapeStr k.data ++ '"' :: ':' :: (serialize v ++ '\x7d' :: rest)) from by
        simp [serializeFields]]
      rw [parseFields.eq_def]
      simp [parseStrBody_escape, hv]
    | cons kv2 fs3 =>
      have hFpos : 1 ≤ jsizeF (kv2 :: fs3) := by
        obtain ⟨k2, v2⟩ := kv2
        rw [show jsizeF ((k2, v2) :: fs3) = jsize v2 + jsizeF fs3 + 1 from by simp [jsizeF]]
        omega
      have hv := parse_serialize v f
        (',' :: (serializeFields (kv2 :: fs3) ++ '\x7d' :: rest)) (by omega) (by rfl)
      have hrec := parse_serialize_fields (kv2 :: fs3) f rest (by simp) (by omega)
      rw [show serializeFields ((k, v) :: kv2 :: fs3) ++ '\x7d' :: rest
          = '"' :: (escapeStr k.data ++ '"' :: ':' ::
              (serialize v ++ ',' :: (serializeFields (kv2 :: fs3) ++ '\x7d' :: rest))) from by
        simp [serializeFields]]
      rw [parseFields.eq_def]
      simp [parseStrBody_escape, hv, hrec]

end

/-! #### Fuel is covered by the serialized length -/

mutual

theorem jsize_le_length (j : Json) : jsize j ≤ (serialize j).length := by
  cases j with
  | null => simp [jsize, serialize, jsonLitNull]
  | bool b => cases b <;> simp [jsize, serialize, jsonLitTrue, jsonLitFalse]
  | num n =>
    rw [show jsize (Json.num n) = 1 from by simp [jsize]]
    by_cases hn : n < 0
    · simp [serialize, intChars, hn]
    · rw [show serialize (Json.num n) = numChars n.toNat from by simp [serialize, intChars]; omega]
      exact List.length_pos.mpr (numChars_ne_nil _)
  | str s => simp [jsize, serialize]
  | arr xs =>
    have h := jsizeL_le_length xs
    rw [show jsize (Json.arr xs) = jsizeL xs + 1 from by simp [jsize]]
    rw [show serialize (Json.arr xs) = '[' :: (serializeElems xs ++ [']']) from by simp [serialize]]
    simp only [List.length_cons, List.length_append, List.length_singleton]
    omega
  | obj fs =>
    have h := jsizeF_le_length fs
    rw [show jsize (Json.obj fs) = jsizeF fs + 1 from by simp [jsize]]
    rw [show serialize (Json.obj fs) = '\x7b' :: (serializeFields fs ++ ['\x7d']) from by
      simp [serialize]]
    simp only [List.length_cons, List.length_append, List.length_singleton]
    omega

theorem jsizeL_le_length (xs : List Json) : jsizeL xs ≤ (serializeElems xs).length + 1 := by
  cases xs with
  | nil => simp [jsizeL]
  | cons x xs2 =>
    have hx := jsize_le_length x
    cases xs2 with
    | nil =>
      rw [show jsizeL [x] = jsize x + jsizeL [] + 1 from by simp [jsizeL],
        show jsizeL ([] : List Json) = 0 from by simp [jsizeL],
        show serializeElems [x] = serialize x from by simp [serializeElems]]
      omega
    | cons y ys =>
      have hrec := jsizeL_le_length (y :: ys)
      rw [show jsizeL (x :: y :: ys) = jsize x + jsizeL (y :: ys) + 1 from by simp [jsizeL],
        show serializeElems (x :: y :: ys) = serialize x ++ ',' :: serializeElems (y :: ys) from by
          simp [serializeElems]]
      simp only [List.length_append, List.length_cons]
      omega

theorem jsizeF_le_length (fs : List (String × Json)) :
    jsizeF fs ≤ (serializeFields fs).length + 1 := by
  cases fs with
  | nil => simp [jsizeF]
  | cons kv fs2 =>
    obtain ⟨k, v⟩ := kv
    have hv := jsize_le_length v
    cases fs2 with
    | nil =>
      rw [show jsizeF [(k, v)] = jsize v + jsizeF [] + 1 from by simp [jsizeF],
        show jsizeF ([] : List (String × Json)) = 0 from by simp [jsizeF],
        show serializeFields [(k, v)] = '"' :: (escapeStr k.data ++ '"' :: ':' :: serialize v)
          from by simp [serializeFields]]
      simp only [List.length_cons, List.length_append]
      omega
    | cons kv2 fs3 =>
      have hrec := jsizeF_le_length (kv2 :: fs3)
      rw [show jsizeF ((k, v) :: kv2 :: fs3) = jsize v + jsizeF (kv2 :: fs3) + 1 from by
          simp [jsizeF],
        show serializeFields ((k, v) :: kv2 :: fs3)
            = ('"' :: (escapeStr k.data ++ '"' :: ':' :: serialize v))
              ++ ',' :: serializeFields (kv2 :: fs3) from by simp [serializeFields]]
      simp only [List.length_cons, List.length_append]
      omega

end

/-- `json.load` of a whole document: parse with enough fuel and require
that the document spans the whole text. -/
def parseTop (cs : List Char) : Option Json :=
  match parseJ (cs.length + 1) cs with
  | some (j, []) => some j
  | _ => none

theorem parseTop_serialize (j : Json) : parseTop (serialize j) = some j := by
  unfold parseTop
  have h := parse_serialize j ((serialize j).length + 1) []
    (by have := jsize_le_length j; omega) rfl
  rw [List.append_nil] at h
  rw [h]

/-! #### The registry as a JSON document -/

/-- A nullable string field. -/
def optStrJson : Option String → Json
  | none => .null
  | some s => .str s

/-- The `schedule` sub-object. -/
def scheduleToJson (s : Schedule) : Json :=
  .obj [("type", optStrJson s.type), ("expression", optStrJson s.expression)]

/-- One task record as stored in `registry.json`. -/
def taskToJson (t : Task) : Json :=
  .obj [("id", optStrJson t.id),
        ("schedule", match t.schedule with | none => .null | some s => scheduleToJson s),
        ("enabled", match t.enabled with | none => .null | some b => .bool b),
        ("lastRun", optStrJson t.lastRun),
        ("lastStatus", optStrJson t.lastStatus),
        ("nextRun", optStrJson t.nextRun)]

/-- The whole registry document `{"tasks": [...], "schedulerPid": ...}`. -/
def registryToJson (reg : Registry) : Json :=
  .obj [("tasks", .arr (reg.tasks.map taskToJson)),
        ("schedulerPid", match reg.schedulerPid with | none => .null | some p => .num p)]

/-- Read back a nullable string field. -/
def jsonOptStr : Json → Option (Option String)
  | .null => some none
  | .str s => some (some s)
  | _ => none

/-- Read back a nullable boolean field. -/
def jsonOptBool : Json → Option (Option Bool)
  | .null => some none
  | .bool b => some (some b)
  | _ => none

/-- Read back the `schedule` sub-object. -/
def jsonSchedule : Json → Option (Option Schedule)
  | .null => some none
  | .obj [("type", tj), ("expression", ej)] =>
    (match jsonOptStr tj, jsonOptStr ej with
     | some a, some b => some (some ⟨a, b⟩)
     | _, _ => none)
  | _ => none

/-- Read back one task record. -/
def jsonToTask : Json → Option Task
  | .obj [("id", j1), ("schedule", j2), ("enabled", j3), ("lastRun", j4),
          ("lastStatus", j5), ("nextRun", j6)] =>
    (match jsonOptStr j1, jsonSchedule j2, jsonOptBool j3, jsonOptStr j4,
           jsonOptStr j5, jsonOptStr j6 with
     | some a, some b, some c, some d, some e, some g => some ⟨a, b, c, d, e, g⟩
     | _, _, _, _, _, _ => none)
  | _ => none

/-- Read back a task list. -/
def decodeTasks : List Json → Option (List Task)
  | [] => some []
  | j :: js =>
    match jsonToTask j, decodeTasks js with
    | some t, some ts => some (t :: ts)
    | _, _ => none

/-- Read back the scheduler pid marker. -/
def jsonPid : Json → Option (Option Int)
  | .null => some none
  | .num p => some (some p)
  | _ => none

/-- Read back the whole registry document. -/
def jsonToRegistry : Json → Option Registry
  | .obj [("tasks", .arr tj), ("schedulerPid", pj)] =>
    (match decodeTasks tj, jsonPid pj with
     | some ts, some p => some ⟨ts, p⟩
     | _, _ => none)
  | _ => none

theorem jsonOptStr_inv (o : Option String) : jsonOptStr (optStrJson o) = some o := by
  cases o <;> rfl

theorem jsonSchedule_inv (s : Schedule) : jsonSchedule (scheduleToJson s) = some (some s) := by
  obtain ⟨a, b⟩ := s
  simp [scheduleToJson, jsonSchedule, jsonOptStr_inv]

theorem jsonToTask_inv (t : Task) : jsonToTask (taskToJson t) = some t := by
  obtain ⟨a, b, c, d, e, g⟩ := t
  cases b with
  | none => cases c <;> simp [taskToJson, jsonToTask, jsonOptStr_inv, jsonSchedule, jsonOptBool]
  | some s =>
    cases c <;> simp [taskToJson, jsonToTask, jsonOptStr_inv, jsonSchedule_inv, jsonOptBool]

theorem decodeTasks_inv (ts : List Task) : decodeTasks (ts.map taskToJson) = some ts := by
  induction ts with
  | nil => rfl
  | cons t ts2 ih => simp [decodeTasks, jsonToTask_inv, ih]

theorem jsonToRegistry_inv (reg : Registry) :
    jsonToRegistry (registryToJson reg) = some reg := by
  obtain ⟨ts, p⟩ := reg
  cases p <;> simp [registryToJson, jsonToRegistry, decodeTasks_inv, jsonPid]

/-! #### `save_registry` / `load_registry` and the round-trip claim -/

/-- The text `json.dump` writes for a registry. -/
def save_registry_content (reg : Registry) : String :=
  String.mk (serialize (registryToJson reg))

/-- The empty registry, `{"tasks": [], "schedulerPid": None}`. -/
def emptyRegistry : Registry := ⟨[], none⟩

/-- `load_registry()` as a function of the persisted file content: when
the registry file does not exist, the empty registry; otherwise
`json.load` of its text. -/
def load_registry (file? : Option String) : Option Json :=
  match file? with
  | none => some (registryToJson emptyRegistry)
  | some s => parseTop s.data

/-- C9: saving any registry with `save_registry` and loading it back
with `load_registry` reproduces the same document, whose task records
decode to exactly the original tasks (same ids, schedules, statuses);
and loading when no persisted state exists returns the empty registry —
no tasks, no scheduler pid. -/
theorem C9_registry_round_trip (reg : Registry) :
    load_registry (some (save_registry_content reg)) = some (registryToJson reg)
    ∧ jsonToRegistry (registryToJson reg) = some reg
    ∧ load_registry none = some (registryToJson emptyRegistry) := by
  refine ⟨?_, jsonToRegistry_inv reg, rfl⟩
  show parseTop (String.mk (serialize (registryToJson reg))).data = some (registryToJson reg)
  rw [show (String.mk (serialize (registryToJson reg))).data
      = serialize (registryToJson reg) from rfl]
  exact parseTop_serialize _

end Scheduler
